import Mathlib

/-!
# Verification of the `Timeline` animation sequencer (`src/timeline.ts`)

Shallow embedding of the Timeline class. JavaScript numbers are modelled as
`JSNum := Option ℚ` where `none` plays the role of `NaN` (every arithmetic
operation propagates it, every comparison involving it is false, `Math.max`
returns it).  The stored `position` field of an animation entry is modelled
with its declared TypeScript type `number | string | undefined`, i.e.
`Option (JSNum ⊕ String)`.  Wall-clock timestamps, user-supplied seconds and
frame-request handles are explicit parameters.  Callbacks (`onChange`,
`onUpdate`, ...) are opaque to the scheduler; the functions that invoke them
return the list of arguments passed instead of performing the call.
-/

/-- A JavaScript number: `none` is `NaN`. -/
abbrev JSNum := Option ℚ

/-- Embed a real (non-NaN) number. -/
def jnum (q : ℚ) : JSNum := some q

/-- JS addition (NaN-propagating). -/
def jadd : JSNum → JSNum → JSNum
  | some a, some b => some (a + b)
  | _, _ => none

/-- JS subtraction (NaN-propagating). -/
def jsub : JSNum → JSNum → JSNum
  | some a, some b => some (a - b)
  | _, _ => none

/-- JS multiplication (NaN-propagating). -/
def jmul : JSNum → JSNum → JSNum
  | some a, some b => some (a * b)
  | _, _ => none

/-- `Math.max` (NaN if either argument is NaN). -/
def jmax : JSNum → JSNum → JSNum
  | some a, some b => some (max a b)
  | _, _ => none

/-- JS `<=` (false if either side is NaN). -/
def jle : JSNum → JSNum → Bool
  | some a, some b => decide (a ≤ b)
  | _, _ => false

/-- JS `<` (false if either side is NaN). -/
def jlt : JSNum → JSNum → Bool
  | some a, some b => decide (a < b)
  | _, _ => false

/-- JS truthiness of a number: `0` and `NaN` are falsy. -/
def jtruthy : JSNum → Bool
  | some q => decide (q ≠ 0)
  | none => false

/-- Truncation toward zero (JS `%` uses truncated division). -/
def ratTrunc (q : ℚ) : ℤ := if 0 ≤ q then ⌊q⌋ else -⌊-q⌋

/-- JS remainder `x % y` for a non-zero divisor: sign follows the dividend. -/
def jsRem (x y : ℚ) : ℚ := x - y * ratTrunc (x / y)

/-! ## Decimal-string parsing

The source uses three different numeric-string notions:
`String.match` against `[-+]?\d*\.?\d+` (inside the `^([<>])([=]?)…` regex,
not anchored at the end), `Number(...)` (anchored, `""` is `0`), and
`parseFloat(...)` (longest numeric prefix, `NaN` when no digit is found).
Exponents, hex and infinity forms are not modelled; the repository only
feeds decimal tokens or non-numeric label names into these. -/

/-- Numeric value of a digit list (most significant first). -/
def digitsVal (cs : List Char) : ℕ := cs.foldl (fun n c => 10 * n + (c.toNat - 48)) 0

/-- Rational denoted by integer digits plus fraction digits. -/
def decValue (intPart fracPart : List Char) : ℚ :=
  (digitsVal intPart : ℚ) + (digitsVal fracPart : ℚ) / ((10 : ℚ) ^ fracPart.length)

/-- Longest match of `\d*\.?\d+` at the head of `cs`; returns the value and
the unconsumed remainder, or `none` when the regex cannot match here.
(A trailing dot with no following digit is not consumed, mirroring the
backtracking of `\.?\d+`.) -/
def decPrefix (cs : List Char) : Option (ℚ × List Char) :=
  let intPart := cs.takeWhile Char.isDigit
  let rest := cs.drop intPart.length
  match rest with
  | '.' :: rest2 =>
    let fracPart := rest2.takeWhile Char.isDigit
    if fracPart.isEmpty then
      if intPart.isEmpty then none
      else some (decValue intPart [], rest)
    else some (decValue intPart fracPart, rest2.drop fracPart.length)
  | _ =>
    if intPart.isEmpty then none else some (decValue intPart [], rest)

/-- `[-+]?\d*\.?\d+` at the head of `cs` (unanchored). -/
def signedDecPrefix (cs : List Char) : Option (ℚ × List Char) :=
  match cs with
  | '-' :: rest => (decPrefix rest).map (fun p => (-p.1, p.2))
  | '+' :: rest => decPrefix rest
  | _ => decPrefix cs

/-- The whole-string decimal grammar accepted by JS `Number(...)` after the
optional sign: `d+`, `d+.`, `d+.d+` or `.d+`. -/
def numberCore (cs : List Char) : Option ℚ :=
  let intPart := cs.takeWhile Char.isDigit
  match cs.drop intPart.length with
  | [] => if intPart.isEmpty then none else some (decValue intPart [])
  | '.' :: rest2 =>
    let fracPart := rest2.takeWhile Char.isDigit
    if intPart.isEmpty ∧ fracPart.isEmpty then none
    else if (rest2.drop fracPart.length).isEmpty then some (decValue intPart fracPart)
    else none
  | _ => none

/-- JS `Number(s)` on (already trimmed) decimal input: `""` is `0`,
non-numeric input is `NaN`. -/
def jsNumber (s : String) : JSNum :=
  match s.data with
  | [] => jnum 0
  | '-' :: rest => (numberCore rest).map (fun q => -q)
  | '+' :: rest => numberCore rest
  | cs => numberCore cs

/-- JS `parseFloat(s)`: value of the longest numeric prefix, `NaN` if none. -/
def parseFloatJS (s : String) : JSNum :=
  match s.data with
  | '-' :: rest => ((decPrefix rest).map (fun p => -p.1) : Option ℚ)
  | '+' :: rest => (decPrefix rest).map Prod.fst
  | cs => (decPrefix cs).map Prod.fst

/-- Match of `add`'s regex `^([<>])([=]?)([-+]?\d*\.?\d+)` : returns
(`true` iff the prefix is `'<'`, captured time value). -/
def matchAngle (s : String) : Option (Bool × ℚ) :=
  match s.data with
  | '<' :: rest =>
    (signedDecPrefix (match rest with | '=' :: r2 => r2 | _ => rest)).map
      (fun p => (true, p.1))
  | '>' :: rest =>
    (signedDecPrefix (match rest with | '=' :: r2 => r2 | _ => rest)).map
      (fun p => (false, p.1))
  | _ => none

/-- The anchored form `\d*\.?\d+` used by `to()`'s relative-value regex
(`$`-anchored, so a trailing dot is rejected). -/
def strictDec (cs : List Char) : Option ℚ :=
  let intPart := cs.takeWhile Char.isDigit
  match cs.drop intPart.length with
  | [] => if intPart.isEmpty then none else some (decValue intPart [])
  | '.' :: rest2 =>
    let fracPart := rest2.takeWhile Char.isDigit
    if fracPart.isEmpty then none
    else if (rest2.drop fracPart.length).isEmpty then some (decValue intPart fracPart)
    else none
  | _ => none

/-- Match of `to()`'s regex `^([+-]=)([-]?\d*\.?\d+)$`: returns
(`true` iff the operator is `'+='`, the relative value as delivered by
`parseFloat` on the exact captured string). -/
def matchRelValue (s : String) : Option (Bool × ℚ) :=
  match s.data with
  | '+' :: '=' :: rest =>
    (match rest with
      | '-' :: r2 => (strictDec r2).map (fun q => (true, -q))
      | _ => (strictDec rest).map (fun q => (true, q)))
  | '-' :: '=' :: rest =>
    (match rest with
      | '-' :: r2 => (strictDec r2).map (fun q => (false, -q))
      | _ => (strictDec rest).map (fun q => (false, q)))
  | _ => none

/-! ## Timeline state -/

/-- The scheduler-relevant part of `AnimationOptions` (`duration?` in ms;
callbacks are opaque, only the presence of `onChange` matters to which
arguments get emitted). -/
structure AnimOptions where
  duration : Option ℚ
  hasOnChange : Bool
  deriving DecidableEq, Repr

/-- One stored animation entry; `position` has the declared type
`number | string | undefined`. -/
structure AnimEntry where
  options : AnimOptions
  position : Option (JSNum ⊕ String)
  deriving DecidableEq, Repr

/-- A caller-supplied position argument (`number | string`). -/
inductive PosTok where
  | num (q : ℚ)
  | str (s : String)
  deriving DecidableEq, Repr

/-- The `Timeline` instance fields. `startTime : number | null` and
`animationFrameId : number | null` keep their nullable types;
`playForward` is `true` for `playDirection === 'forward'`. -/
structure Timeline where
  animations : List AnimEntry
  labels : List (String × JSNum)
  currentTime : JSNum
  duration : JSNum
  isPlayingInternal : Bool
  isPausedInternal : Bool
  playForward : Bool
  startTime : Option JSNum
  rep : ℤ
  repeatDelay : ℚ
  repeatCount : ℤ
  shouldYoyo : Bool
  animationFrameId : Option ℕ
  deriving DecidableEq, Repr

/-- A freshly constructed timeline with the given cycle configuration. -/
def mkTimeline (rep : ℤ) (repeatDelay : ℚ) (yoyo : Bool) : Timeline :=
  { animations := [], labels := [], currentTime := jnum 0, duration := jnum 0
    isPlayingInternal := false, isPausedInternal := false, playForward := true
    startTime := none, rep := rep, repeatDelay := repeatDelay, repeatCount := 0
    shouldYoyo := yoyo, animationFrameId := none }

/-- `new Timeline({})`. -/
def timelineEmpty : Timeline := mkTimeline 0 0 false

/-- `this.labels[name]` read. -/
def lookupLabel (L : List (String × JSNum)) (k : String) : Option JSNum :=
  (L.find? (fun p => p.1 = k)).map Prod.snd

/-- `this.labels[name] = v` (overwrites an existing binding). -/
def setLabel (L : List (String × JSNum)) (k : String) (v : JSNum) :
    List (String × JSNum) :=
  if L.any (fun p => p.1 = k) then
    L.map (fun p => if p.1 = k then (k, v) else p)
  else L ++ [(k, v)]

/-! ## `add` and duration computation -/

/-- `previousAnimationStartTime`: the previous entry's position if it is a
number (`typeof … === 'number'`, which includes NaN), else `0`. -/
def prevStartOf (p : AnimEntry) : JSNum :=
  match p.position with
  | some (Sum.inl jn) => jn
  | _ => jnum 0

/-- The string-position resolution of `Timeline.add` (the branches after the
literal `'>'` / `'<'` cases), returning `resolvedPosition`. -/
def resolveStr (tl : Timeline) (s : String) (prevStart : JSNum) (prevDur : ℚ) :
    Option JSNum :=
  match matchAngle s with
  | some (isLt, tv) =>
    if isLt then some (jadd prevStart (jnum (tv * 1000)))
    else some (jadd (jadd prevStart (jnum prevDur)) (jnum (tv * 1000)))
  | none =>
    if (s.startsWith "+" || s.startsWith "-") && s.contains '=' then
      let op := s.take 2
      let relativeTime := jsNumber (s.drop 2)
      if op = "+=" then some (jadd tl.duration (jmul relativeTime (jnum 1000)))
      else if op = "-=" then
        some (jmax (jnum 0) (jadd tl.duration (jmul relativeTime (jnum 1000))))
      else none
    else
      match lookupLabel tl.labels s with
      | some v => if jtruthy v then some v else none
      | none => none

/-- One step of `calculateDuration`'s loop: `insertPosition` is the entry's
position when numeric, else the running `calculatedDuration`. -/
def durationStep (acc : JSNum) (a : AnimEntry) : JSNum :=
  let animDuration := a.options.duration.getD 0
  let insertPosition : JSNum :=
    match a.position with
    | some (Sum.inl jn) => jn
    | _ => acc
  jmax acc (jadd insertPosition (jnum animDuration))

/-- `Timeline.calculateDuration`. -/
def calcDuration (l : List AnimEntry) : JSNum := l.foldl durationStep (jnum 0)

/-- `resolvedPosition` as computed by `Timeline.add`: the previous entry's
start and duration feed the `undefined`/`'>'`/`'<'`/relative cases,
`resolveStr` the remaining string forms, and a numeric position is
seconds × 1000. -/
def addResolved (tl : Timeline) (position : Option PosTok) : Option JSNum :=
  let prevStart : JSNum :=
    match tl.animations.getLast? with
    | some p => prevStartOf p
    | none => jnum 0
  let prevDur : ℚ :=
    match tl.animations.getLast? with
    | some p => p.options.duration.getD 0
    | none => 0
  match position with
  | none => some (jadd prevStart (jnum prevDur))
  | some (PosTok.str ">") => some (jadd prevStart (jnum prevDur))
  | some (PosTok.str "<") => some prevStart
  | some (PosTok.str s) => resolveStr tl s prevStart prevDur
  | some (PosTok.num q) => some (jnum (q * 1000))

/-- `Timeline.add`: resolve the position token, push the entry, recompute
the duration. -/
def addAnim (tl : Timeline) (options : AnimOptions) (position : Option PosTok) :
    Timeline :=
  let newAnims := tl.animations ++
    [{ options := options, position := (addResolved tl position).map Sum.inl }]
  { tl with animations := newAnims, duration := calcDuration newAnims }

/-- `Timeline.addLabel`: a numeric position is stored as seconds × 1000,
anything else stores the current duration. -/
def addLabelTL (tl : Timeline) (label : String) (position : Option PosTok) :
    Timeline :=
  match position with
  | some (PosTok.num n) => { tl with labels := setLabel tl.labels label (jnum (n * 1000)) }
  | _ => { tl with labels := setLabel tl.labels label tl.duration }

/-- The scheduling effect of `Timeline.to`: it builds options with
`duration: duration * 1000` and an `onChange` callback and hands them to
`add` (the interpolation callback itself is modelled separately below). -/
def toSchedule (tl : Timeline) (durSec : ℚ) (pos : Option PosTok) : Timeline :=
  addAnim tl { duration := some (durSec * 1000), hasOnChange := true } pos

/-! ## Playback state machine -/

/-- `Timeline.pause`: stop the loop (cancel any pending frame) and mark
paused; `currentTime` is untouched. -/
def pauseTL (tl : Timeline) : Timeline :=
  { tl with isPlayingInternal := false, isPausedInternal := true,
            animationFrameId := none }

/-- `Timeline.play(from?)`.  `now` is `performance.now()` and `fid` the
handle returned by `requestAnimFrame`.  Note the inner
`!this.isPlaying && currentTime >= duration` test is evaluated *after*
`isPlayingInternal` was set to `true`. -/
def playTL (tl : Timeline) (now : ℚ) (fid : ℕ) (fromArg : Option PosTok) :
    Timeline :=
  if tl.isPlayingInternal then tl
  else
    let tl1 := { tl with isPlayingInternal := true, isPausedInternal := false,
                         playForward := true }
    let tl2 :=
      match fromArg with
      | none =>
        let tl1' :=
          if !tl1.isPlayingInternal && jle tl1.duration tl1.currentTime then
            { tl1 with currentTime := jnum 0 }
          else tl1
        { tl1' with startTime := some (jsub (jnum now) tl1'.currentTime) }
      | some (PosTok.num q) =>
        { tl1 with startTime := none, repeatCount := 0,
                   currentTime := jnum (q * 1000) }
      | some (PosTok.str lbl) =>
        match lookupLabel tl1.labels lbl with
        | some v => { tl1 with startTime := none, repeatCount := 0, currentTime := v }
        | none => { tl1 with startTime := none, repeatCount := 0, currentTime := jnum 0 }
    { tl2 with animationFrameId := some fid }

/-- `Timeline.reverse`. -/
def reverseTL (tl : Timeline) (now : ℚ) (fid : ℕ) : Timeline :=
  let tl0 := { tl with playForward := false }
  if !tl0.isPlayingInternal then
    let tl1 := { tl0 with isPlayingInternal := true, isPausedInternal := false }
    let tl2 :=
      if jle tl1.duration tl1.currentTime then { tl1 with currentTime := tl1.duration }
      else tl1
    { tl2 with startTime := some (jsub (jnum now) (jsub tl2.duration tl2.currentTime)),
               animationFrameId := some fid }
  else
    { tl0 with startTime := some (jsub (jnum now) (jsub tl0.duration tl0.currentTime)) }

/-- `Timeline.togglePlayPause`. -/
def toggleTL (tl : Timeline) (now : ℚ) (fid : ℕ) : Timeline :=
  if tl.isPlayingInternal then pauseTL tl
  else if tl.playForward then playTL tl now fid none
  else reverseTL tl now fid

/-- `Timeline.yoyo(value)` used as a setter. -/
def yoyoSet (tl : Timeline) (b : Bool) : Timeline := { tl with shouldYoyo := b }

/-! ## Frame tick -/

/-- `Timeline.calculateCurrentTime` as a function of the elapsed time
`time - startTime`.  The repeat/yoyo fold is applied only when
`repeat !== 0`; a zero cycle duration makes `%` return NaN (and the yoyo
parity test, comparing an infinite or NaN cycle index, never fires). -/
def calcCurrentTime (tl : Timeline) (elapsed : JSNum) : JSNum :=
  let currentEffectiveTime : JSNum :=
    if tl.rep = 0 then elapsed
    else
      match elapsed, jadd tl.duration (jnum (tl.repeatDelay * 1000)) with
      | some e, some c =>
        if c = 0 then none
        else
          let cycleTime := jsRem e c
          if tl.shouldYoyo ∧ Int.tmod ⌊e / c⌋ 2 = 1 then some (c - cycleTime)
          else some cycleTime
      | _, _ => none
  if tl.playForward then currentEffectiveTime
  else jmax (jnum 0) (jsub tl.duration currentEffectiveTime)

/-- `Timeline.resolveAnimationStartTime`: the position if it is a number
(NaN included), else `0`. -/
def procStart (a : AnimEntry) : JSNum :=
  match a.position with
  | some (Sum.inl jn) => jn
  | _ => jnum 0

/-- `Timeline.processAnimations`: per entry, the argument passed to its
`onChange` this frame (`none` when the entry is outside the window or has
no `onChange`). -/
def processAnimations (tl : Timeline) : List (Option JSNum) :=
  tl.animations.map fun a =>
    let animationStart := procStart a
    let animationEnd := jadd animationStart (jnum (a.options.duration.getD 0))
    if jle animationStart tl.currentTime && jle tl.currentTime animationEnd then
      if a.options.hasOnChange then
        some (jmax (jnum 0) (jsub tl.currentTime animationStart))
      else none
    else none

/-- `Timeline.shouldRepeat`. -/
def shouldRepeatTL (tl : Timeline) : Bool :=
  decide (tl.repeatCount < tl.rep) || decide (tl.rep = -1)

/-- `Timeline.handleTimelineCompletion` (completion callbacks are opaque and
not recorded). -/
def completionTL (tl : Timeline) (time : ℚ) : Timeline :=
  if tl.playForward then
    let totalDuration := jadd tl.duration (jnum (tl.repeatDelay * 1000))
    if jle totalDuration tl.currentTime then
      if shouldRepeatTL tl then
        { tl with repeatCount := tl.repeatCount + 1,
                  playForward := if tl.shouldYoyo then false else tl.playForward,
                  startTime := some (jsub (jnum time) (jsub tl.currentTime totalDuration)) }
      else pauseTL tl
    else tl
  else
    if jle tl.currentTime (jnum 0) then
      if shouldRepeatTL tl then
        { tl with repeatCount := tl.repeatCount + 1, playForward := true,
                  startTime := some (jadd (jnum time) tl.currentTime) }
      else pauseTL tl
    else tl

/-- JS falsiness of `startTime : number | null` (`null`, `0` and NaN). -/
def jfalsyN : Option JSNum → Bool
  | none => true
  | some none => true
  | some (some q) => decide (q = 0)

/-- One `runAnimations` frame tick (the per-entry emissions are dropped;
`processAnimations` above exposes them). -/
def tickTL (tl : Timeline) (time : ℚ) (fid : ℕ) : Timeline :=
  let st : JSNum := if jfalsyN tl.startTime then jnum time else tl.startTime.getD (jnum time)
  let tl1 := { tl with startTime := some st }
  let tl2 := { tl1 with currentTime := calcCurrentTime tl1 (jsub (jnum time) st) }
  let tl3 := completionTL tl2 time
  if tl3.isPlayingInternal then { tl3 with animationFrameId := some fid } else tl3

/-! ## Seek and progress -/

/-- The start time `seek` uses for an entry: `undefined` → `0`, a number is
used as-is, a string is looked up among the labels (missing → `0`); any
non-number position is then multiplied by 1000. -/
def seekStart (labels : List (String × JSNum)) (a : AnimEntry) : JSNum :=
  let base : JSNum :=
    match a.position with
    | none => jnum 0
    | some (Sum.inl jn) => jn
    | some (Sum.inr s) =>
      match lookupLabel labels s with
      | some v => v
      | none => jnum 0
  match a.position with
  | some (Sum.inl _) => base
  | _ => jmul base (jnum 1000)

/-- `Timeline.seek` for a general (possibly NaN) seconds argument: the new
state plus, per entry, the argument its `onChange` receives (`none` when the
entry has no `onChange`). -/
def seekRunJ (tl : Timeline) (t : JSNum) : Timeline × List (Option JSNum) :=
  let ct := jmul t (jnum 1000)
  let outs := tl.animations.map fun a =>
    let animationStart := seekStart tl.labels a
    let animationEnd := jadd animationStart (jnum (a.options.duration.getD 0))
    let arg : JSNum :=
      if jle animationStart ct && jle ct animationEnd then
        jmax (jnum 0) (jsub ct animationStart)
      else if jlt ct animationStart then jnum 0
      else jnum (a.options.duration.getD 0)
    if a.options.hasOnChange then some arg else none
  ({ tl with currentTime := ct }, outs)

/-- `Timeline.seek(timeInSeconds)` with a real argument. -/
def seekRun (tl : Timeline) (t : ℚ) : Timeline × List (Option JSNum) :=
  seekRunJ tl (jnum t)

/-- `Timeline.progress(value)`: warn-and-ignore outside `[0,1]`, else
`seek((duration * value) / 1000)`. -/
def progressRun (tl : Timeline) (v : ℚ) : Timeline × List (Option JSNum) :=
  if v < 0 ∨ 1 < v then (tl, [])
  else seekRunJ tl (Option.map (fun x => x * v / 1000) tl.duration)

/-! ## The `to()` interpolation callback

`to` snapshots `startValues[key] = object[key]` and computes `endValues[key]`
at build time; its `onChange` then, for every key whose start and end values
pass a `typeof … === 'number'` test (which NaN passes), writes
`easing(currentTime, startVal, endVal - startVal, duration)` onto the target.
The target is an association list of numeric properties; a missing key reads
as `undefined`. -/

/-- A value supplied in `to()`'s properties map. -/
inductive PropVal where
  | num (q : ℚ)
  | str (s : String)
  deriving DecidableEq, Repr

/-- `object[key]`: `none` when the property is absent (`undefined`). -/
def lookupProp (obj : List (String × JSNum)) (k : String) : Option JSNum :=
  (obj.find? (fun p => p.1 = k)).map Prod.snd

/-- `endValues[key]` as computed at build time. -/
def endValueFor (obj : List (String × JSNum)) (k : String) : PropVal → JSNum
  | PropVal.num q => jnum q
  | PropVal.str s =>
    match matchRelValue s with
    | some (isPlus, rv) =>
      match lookupProp obj k with
      | some jn => if isPlus then jadd jn (jnum rv) else jsub jn (jnum rv)
      | none => none
    | none => parseFloatJS s

/-- Lift a real easing function to NaN-propagating JS numbers (every
arithmetic easing maps a NaN argument to NaN). -/
def applyEase (f : ℚ → ℚ → ℚ → ℚ → ℚ) (t b c d : JSNum) : JSNum :=
  match t, b, c, d with
  | some t', some b', some c', some d' => some (f t' b' c' d')
  | _, _, _, _ => none

/-- The writes `(key, value)` performed on the target by the `onChange`
callback built by `to()`, in property order, when invoked with elapsed time
`t`; `durMs` is `animationOptions.duration`. -/
def toOnChangeWrites (obj : List (String × JSNum))
    (props : List (String × PropVal)) (durMs : ℚ)
    (ease : ℚ → ℚ → ℚ → ℚ → ℚ) (t : JSNum) : List (String × JSNum) :=
  props.filterMap fun kv =>
    let startVal := lookupProp obj kv.1
    let endVal := endValueFor obj kv.1 kv.2
    match startVal with
    | some sv => some (kv.1, applyEase ease t sv (jsub endVal sv) (jnum durMs))
    | none => none

/-- A linear easing, used to instantiate the opaque easing parameter. -/
def linEase (t b c d : ℚ) : ℚ := b + c * (t / d)

/-! ## Public-API operation sequences (reachable states) -/

/-- One public mutating call on a timeline (`to`'s target/properties/easing
do not influence scheduling, so only its duration and position appear;
wall-clock instants and frame handles are explicit). -/
inductive TLOp where
  | toOp (durSec : ℚ) (pos : Option PosTok)
  | addLabelOp (name : String) (pos : Option PosTok)
  | seekOp (t : ℚ)
  | playOp (now : ℚ) (fid : ℕ) (arg : Option PosTok)
  | pauseOp
  | progressOp (v : ℚ)
  | reverseOp (now : ℚ) (fid : ℕ)
  | toggleOp (now : ℚ) (fid : ℕ)
  | yoyoOp (b : Bool)
  | tickOp (time : ℚ) (fid : ℕ)

/-- Apply one call. -/
def applyOp (tl : Timeline) : TLOp → Timeline
  | TLOp.toOp d p => toSchedule tl d p
  | TLOp.addLabelOp n p => addLabelTL tl n p
  | TLOp.seekOp t => (seekRun tl t).1
  | TLOp.playOp now fid a => playTL tl now fid a
  | TLOp.pauseOp => pauseTL tl
  | TLOp.progressOp v => (progressRun tl v).1
  | TLOp.reverseOp now fid => reverseTL tl now fid
  | TLOp.toggleOp now fid => toggleTL tl now fid
  | TLOp.yoyoOp b => yoyoSet tl b
  | TLOp.tickOp t fid => tickTL tl t fid

/-- Apply a sequence of calls. -/
def applyOps (tl : Timeline) (ops : List TLOp) : Timeline := ops.foldl applyOp tl

/-! ## Basic JSNum lemmas -/

@[simp] theorem jadd_num (a b : ℚ) : jadd (jnum a) (jnum b) = jnum (a + b) := rfl

@[simp] theorem jsub_num (a b : ℚ) : jsub (jnum a) (jnum b) = jnum (a - b) := rfl

@[simp] theorem jmul_num (a b : ℚ) : jmul (jnum a) (jnum b) = jnum (a * b) := rfl

@[simp] theorem jmax_num (a b : ℚ) : jmax (jnum a) (jnum b) = jnum (max a b) := rfl

@[simp] theorem jle_num (a b : ℚ) : jle (jnum a) (jnum b) = decide (a ≤ b) := rfl

@[simp] theorem jlt_num (a b : ℚ) : jlt (jnum a) (jnum b) = decide (a < b) := rfl

@[simp] theorem jnum_inj {a b : ℚ} : jnum a = jnum b ↔ a = b := by
  simp [jnum]

/-! ## Concrete states used by the claim theorems -/

/-- A timeline holding one sequential 2-second tween, so `duration = 2000`. -/
def tlTwoSec : Timeline := toSchedule timelineEmpty 2 none

/-- A finished timeline: one 1-second tween, then `seek(1)`, so
`currentTime = duration = 1000` and it is not playing. -/
def tlFinished : Timeline := (seekRun (toSchedule timelineEmpty 1 none) 1).1

/-- A timeline whose label `"strt"` was explicitly placed at time `0`. -/
def tlZeroLabel : Timeline := addLabelTL timelineEmpty "strt" (some (PosTok.num 0))

/-- C1.  The spec says an entry added at `'-=N'` starts at
`max(0, duration - N*1000)`.  The code computes
`Math.max(0, this.duration + relativeTime * 1000)` — it *adds* — so with
`duration = 2000` the token `'-=1'` resolves to `3000`, not
`max(0, 2000 - 1000) = 1000`.  (The `Math.max(0, ·)` guard, pointless under
addition, and the separate `'+='`/`'-='` operators show the subtraction was
the intent; the claim is right and the code has a sign slip.) -/
theorem minus_equals_position_adds :
    tlTwoSec.duration = jnum 2000 ∧
    ((toSchedule tlTwoSec 1 (some (PosTok.str "-=1"))).animations.map
        (fun a => a.position))
      = [some (Sum.inl (jnum 0)), some (Sum.inl (jnum 3000))] ∧
    (3000 : ℚ) ≠ max 0 (2000 - 1 * 1000) := by
  refine ⟨by with_unfolding_all rfl, by with_unfolding_all rfl, by norm_num⟩

/-- C2.  The spec says `play()` on a finished timeline resets
`currentTime` to 0.  In the code the reset is guarded by
`!this.isPlaying && this.currentTime >= this.duration`, but
`isPlayingInternal` was set to `true` three lines earlier, so the guard is
dead and a finished timeline keeps `currentTime = duration`: here a
finished 1-second timeline still has `currentTime = 1000 ≠ 0` after
`play()`.  The code contradicts its own comment
("If the animation has completed, reset currentTime."). -/
theorem play_after_finish_keeps_current_time :
    tlFinished.isPlayingInternal = false ∧
    tlFinished.currentTime = jnum 1000 ∧
    tlFinished.duration = jnum 1000 ∧
    (playTL tlFinished 5000 7 none).currentTime = jnum 1000 ∧
    jnum (1000 : ℚ) ≠ jnum 0 := by
  refine ⟨by with_unfolding_all rfl, by with_unfolding_all rfl,
    by with_unfolding_all rfl, by with_unfolding_all rfl, by simp [jnum]⟩

/-- C3.  The spec says a property whose end value is an unparseable string
is silently excluded: its `onChange` never writes the property.  In the
code `parseFloat('abc')` is NaN, and NaN passes the
`typeof endVal === 'number'` guard, so the property *is* written — with
NaN.  With `object.left = 10`, properties `{left: 'abc'}`, a 1-second
duration and a linear easing, invoking the built `onChange` at 500 ms
writes `NaN` to `left` instead of performing no write. -/
theorem unparseable_value_still_writes :
    toOnChangeWrites [("left", jnum 10)] [("left", PropVal.str "abc")] 1000
        linEase (jnum 500)
      = [("left", (none : JSNum))] ∧
    ([("left", (none : JSNum))] : List (String × JSNum)) ≠ [] := by
  refine ⟨by with_unfolding_all rfl, by simp⟩

/-- C5.  The spec says a position token naming an existing label resolves to
the label's stored time, "including 0".  The code tests the label with
`else if (this.labels[position])`, a truthiness check, so a label stored at
time `0` is skipped and the position is left unresolved (`undefined`)
rather than `0`.  (Both `seek` and `play` test the same table with
`!== undefined`; the truthy test in `add` is the odd one out, so the claim
reflects the intent.) -/
theorem label_at_zero_is_not_resolved :
    lookupLabel tlZeroLabel.labels "strt" = some (jnum 0) ∧
    ((toSchedule tlZeroLabel 1 (some (PosTok.str "strt"))).animations.map
        (fun a => a.position))
      = [none] ∧
    (none : Option (JSNum ⊕ String)) ≠ some (Sum.inl (jnum 0)) := by
  refine ⟨by with_unfolding_all rfl, by with_unfolding_all rfl, by simp⟩

/-! ## C4: repeat/yoyo folding -/

/-- The playhead formula exactly as the claim states it: with
`cycleDuration = duration + repeatDelay*1000`,
`cycleTime = elapsed mod cycleDuration`, flipped to
`cycleDuration - cycleTime` when yoyo is on and
`floor(elapsed / cycleDuration)` is odd; the result is `cycleTime` playing
forward and `max(0, duration - cycleTime)` playing backward.  (This follows
the spec's words; the code is `calcCurrentTime`.) -/
def specFoldedTime (duration repeatDelay : ℚ) (yoyo forward : Bool)
    (elapsed : ℚ) : ℚ :=
  let cycleDuration := duration + repeatDelay * 1000
  let cycleTime0 := elapsed - cycleDuration * ⌊elapsed / cycleDuration⌋
  let cycleTime :=
    if yoyo ∧ ⌊elapsed / cycleDuration⌋ % 2 = 1 then cycleDuration - cycleTime0
    else cycleTime0
  if forward then cycleTime else max 0 (duration - cycleTime)

/-- A timeline with `repeat: 0, yoyo: true`, duration 1000 ms, no repeat
delay, playing forward. -/
def tlNoRepeat : Timeline := { mkTimeline 0 0 true with duration := jnum 1000 }

/-- Counterexample to C4 as stated ("for every repeat/yoyo configuration"):
when `repeat === 0` the code skips the folding entirely
(`if (this.repeat !== 0)`), so at elapsed 1500 ms it yields 1500 while the
claimed folding rule yields `1000 - 500 = 500`. -/
theorem folding_skipped_when_repeat_zero :
    calcCurrentTime tlNoRepeat (jnum 1500) = jnum 1500 ∧
    specFoldedTime 1000 0 true true 1500 = 500 ∧
    (1500 : ℚ) ≠ 500 := by
  refine ⟨by with_unfolding_all rfl, by with_unfolding_all rfl, by norm_num⟩

/-- C4 (amended).  When `repeat ≠ 0` — the only configurations the
`calculateCurrentTime` fold applies to — with a real (non-NaN) duration, a
positive cycle duration and non-negative elapsed time, the computed
playhead is exactly the claimed folding rule, in both play directions;
when `repeat = 0` no folding happens: the playhead is the raw elapsed time
forward, `max(0, duration - elapsed)` backward. -/
theorem calc_current_time_folds (tl : Timeline) (e D : ℚ)
    (hD : tl.duration = jnum D)
    (hcd : 0 < D + tl.repeatDelay * 1000) (he : 0 ≤ e) :
    calcCurrentTime tl (jnum e) =
      (if tl.rep = 0 then
        (if tl.playForward then jnum e else jnum (max 0 (D - e)))
       else
        jnum (specFoldedTime D tl.repeatDelay tl.shouldYoyo tl.playForward e)) := by
  have hcd' : D + tl.repeatDelay * 1000 ≠ 0 := ne_of_gt hcd
  have hdivnn : 0 ≤ e / (D + tl.repeatDelay * 1000) := div_nonneg he (le_of_lt hcd)
  have hfloornn : 0 ≤ ⌊e / (D + tl.repeatDelay * 1000)⌋ := Int.floor_nonneg.mpr hdivnn
  have htrunc : ratTrunc (e / (D + tl.repeatDelay * 1000))
      = ⌊e / (D + tl.repeatDelay * 1000)⌋ := by
    simp [ratTrunc, hdivnn]
  have htmod : Int.tmod ⌊e / (D + tl.repeatDelay * 1000)⌋ 2
      = ⌊e / (D + tl.repeatDelay * 1000)⌋ % 2 :=
    Int.tmod_eq_emod hfloornn (by norm_num)
  by_cases hrep : tl.rep = 0
  · simp [calcCurrentTime, hrep, hD]
  · simp only [calcCurrentTime, hrep, if_false, hD, specFoldedTime, jnum,
      jadd, jmul, jsub, jmax, jsRem, htrunc, htmod, hcd', ite_false]
    by_cases hy : tl.shouldYoyo = true ∧ ⌊e / (D + tl.repeatDelay * 1000)⌋ % 2 = 1 <;>
      simp only [hy, if_true, if_false, ite_true, ite_false] <;> split <;> rfl

/-- A timeline with `repeat: 2, yoyo: true`, duration 1000 ms. -/
def tlYoyoRepeat : Timeline := { mkTimeline 2 0 true with duration := jnum 1000 }

/-- Witness for C4's amended theorem: with `repeat: 2, yoyo: true`,
duration 1000 and elapsed 1500, the frame computation matches the folding
rule (both give 500: second cycle, playing in reverse). -/
theorem calc_current_time_folds_witness :
    calcCurrentTime tlYoyoRepeat (jnum 1500)
      = jnum (specFoldedTime 1000 0 true true 1500) ∧
    specFoldedTime 1000 0 true true 1500 = 500 := by
  constructor
  · have hrd : tlYoyoRepeat.repeatDelay = 0 := rfl
    have h := calc_current_time_folds tlYoyoRepeat 1500 1000 rfl
      (by rw [hrd]; norm_num) (by norm_num)
    simpa [tlYoyoRepeat, mkTimeline] using h
  · with_unfolding_all rfl

/-- C9.  An entry whose position was left unresolved (`undefined`) is
evaluated with start time 0 by both the per-frame path
(`resolveAnimationStartTime`, hence window `[0, duration]` in
`processAnimations`) and by `seek` (whatever the label table holds), while
`calculateDuration` treats the same entry as starting at the running
`calculatedDuration` (`insertPosition = calculatedDuration`). -/
theorem unresolved_position_window (labels : List (String × JSNum))
    (a : AnimEntry) (acc : JSNum) (h : a.position = none) :
    procStart a = jnum 0 ∧
    seekStart labels a = jnum 0 ∧
    durationStep acc a = jmax acc (jadd acc (jnum (a.options.duration.getD 0))) := by
  refine ⟨?_, ?_, ?_⟩ <;> simp [procStart, seekStart, durationStep, h, jmul, jnum]

/-- Witness for C9: a concrete unresolved-position entry (500 ms duration)
against a non-trivial label table and running duration 700. -/
theorem unresolved_position_window_witness :
    procStart ⟨⟨some 500, true⟩, none⟩ = jnum 0 ∧
    seekStart [("a", jnum 5)] ⟨⟨some 500, true⟩, none⟩ = jnum 0 ∧
    durationStep (jnum 700) ⟨⟨some 500, true⟩, none⟩
      = jmax (jnum 700) (jadd (jnum 700)
          (jnum ((⟨⟨some 500, true⟩, none⟩ : AnimEntry).options.duration.getD 0))) :=
  unresolved_position_window [("a", jnum 5)] ⟨⟨some 500, true⟩, none⟩ (jnum 700) rfl

/-- C8.  `progress(value)` with `value` outside `[0,1]` only warns: the
state is returned unchanged and no entry callback fires; for `value` in
`[0,1]` it behaves exactly as `seek((duration * value) / 1000)` — same
state, same per-entry `onChange` arguments. -/
theorem progress_rejects_or_delegates (tl : Timeline) (v D : ℚ)
    (hD : tl.duration = jnum D) :
    ((v < 0 ∨ 1 < v) → progressRun tl v = (tl, [])) ∧
    (0 ≤ v → v ≤ 1 → progressRun tl v = seekRun tl (D * v / 1000)) := by
  constructor
  · intro hv
    simp [progressRun, hv]
  · intro h0 h1
    have hcond : ¬(v < 0 ∨ 1 < v) := by
      push_neg
      exact ⟨h0, h1⟩
    simp [progressRun, hcond, seekRun, hD, jnum, Option.map]

/-- Witness for C8: on the 2-second timeline, `progress(2)` is a no-op and
`progress(1/2)` coincides with `seek((2000 * (1/2)) / 1000)`. -/
theorem progress_rejects_or_delegates_witness :
    progressRun tlTwoSec 2 = (tlTwoSec, []) ∧
    progressRun tlTwoSec (1/2) = seekRun tlTwoSec (2000 * (1/2) / 1000) :=
  ⟨(progress_rejects_or_delegates tlTwoSec 2 2000 (by with_unfolding_all rfl)).1
      (Or.inr (by norm_num)),
    (progress_rejects_or_delegates tlTwoSec (1/2) 2000
      (by with_unfolding_all rfl)).2 (by norm_num) (by norm_num)⟩

/-! ## C7: seek -/

/-- The start time the claim speaks about, for entries whose stored
position is a real number or `undefined`. -/
def pureStart (a : AnimEntry) : ℚ :=
  match a.position with
  | some (Sum.inl (some q)) => q
  | _ => 0

/-- The claim's trichotomy for the `onChange` argument of one entry under
`seek`: `0` before the entry's window, elapsed time inside it, the entry's
full duration past it. -/
def seekClaimArg (S Dur ct : ℚ) : ℚ :=
  if ct < S then 0 else if ct ≤ S + Dur then ct - S else Dur

/-- The emitted argument in `seek`'s loop equals the claimed trichotomy
(for a real start time and duration). -/
theorem seek_arg_cases (S Dur ct : ℚ) :
    (if jle (jnum S) (jnum ct) && jle (jnum ct) (jadd (jnum S) (jnum Dur)) then
       jmax (jnum 0) (jsub (jnum ct) (jnum S))
     else if jlt (jnum ct) (jnum S) then jnum 0 else jnum Dur)
      = jnum (seekClaimArg S Dur ct) := by
  by_cases h1 : ct < S
  · have hn : ¬S ≤ ct := not_le.mpr h1
    simp [seekClaimArg, jle, jlt, jadd, jnum, h1, hn]
  · have hS : S ≤ ct := not_lt.mp h1
    by_cases h2 : ct ≤ S + Dur
    · have hmax : max (0 : ℚ) (ct - S) = ct - S := max_eq_right (by linarith)
      simp [seekClaimArg, jle, jlt, jmax, jsub, jadd, jnum, h1, hS, h2, hmax]
    · simp [seekClaimArg, jle, jlt, jadd, jnum, h1, hS, h2]

/-- C7.  `seek(t)` sets `currentTime := t * 1000` and changes nothing else
(in particular `isPlayingInternal`, `isPausedInternal` and
`animationFrameId` are untouched), and hands every entry's `onChange`
exactly one argument: `0` before the entry's window, `currentTime - start`
inside it, the entry's full duration past it.  The hypotheses say every
entry has an `onChange` and a real-number-or-undefined stored position,
which is what `add` stores for every `to()`-built entry. -/
theorem seek_sets_time_and_emits_trichotomy (tl : Timeline) (t : ℚ)
    (h : ∀ a ∈ tl.animations, a.options.hasOnChange = true ∧
      (a.position = none ∨ ∃ q : ℚ, a.position = some (Sum.inl (jnum q)))) :
    (seekRun tl t).1 = { tl with currentTime := jnum (t * 1000) } ∧
    (seekRun tl t).2 = tl.animations.map (fun a =>
      some (jnum (seekClaimArg (pureStart a) (a.options.duration.getD 0)
        (t * 1000)))) := by
  constructor
  · simp [seekRun, seekRunJ, jmul, jnum]
  · simp only [seekRun, seekRunJ]
    apply List.map_congr_left
    intro a ha
    obtain ⟨hc, hp⟩ := h a ha
    have hct : jmul (jnum t) (jnum 1000) = jnum (t * 1000) := rfl
    rcases hp with hnone | ⟨q, hq⟩
    · have hs : seekStart tl.labels a = jnum 0 := by
        simp [seekStart, hnone, jmul, jnum]
      have hps : pureStart a = 0 := by simp [pureStart, hnone]
      simp only [hs, hc, hct, hps, if_true]
      rw [seek_arg_cases]
    · have hs : seekStart tl.labels a = jnum q := by simp [seekStart, hq]
      have hps : pureStart a = q := by simp [pureStart, hq, jnum]
      simp only [hs, hc, hct, hps, if_true]
      rw [seek_arg_cases]

/-- Two sequential 1-second tweens. -/
def tlSeq2 : Timeline := toSchedule (toSchedule timelineEmpty 1 none) 1 none

/-- Witness for C7: seeking the two-entry sequential timeline to 1.5 s; its
entries sit at 0 and 1000 ms with durations 1000 ms each, so the emitted
arguments follow the trichotomy (first entry clamped to 1000, second gets
500). -/
theorem seek_sets_time_witness :
    ((seekRun tlSeq2 (3/2)).1 = { tlSeq2 with currentTime := jnum (3/2 * 1000) } ∧
      (seekRun tlSeq2 (3/2)).2 = tlSeq2.animations.map (fun a =>
        some (jnum (seekClaimArg (pureStart a) (a.options.duration.getD 0)
          (3/2 * 1000))))) ∧
    (seekRun tlSeq2 (3/2)).2 = [some (jnum 1000), some (jnum 500)] := by
  constructor
  · apply seek_sets_time_and_emits_trichotomy
    intro a ha
    have he : tlSeq2.animations
        = [⟨⟨some 1000, true⟩, some (Sum.inl (jnum 0))⟩,
           ⟨⟨some 1000, true⟩, some (Sum.inl (jnum 1000))⟩] := by
      with_unfolding_all rfl
    rw [he] at ha
    simp only [List.mem_cons, List.not_mem_nil, or_false] at ha
    rcases ha with ha | ha <;> subst ha
    · exact ⟨rfl, Or.inr ⟨0, rfl⟩⟩
    · exact ⟨rfl, Or.inr ⟨1000, rfl⟩⟩
  · with_unfolding_all rfl

/-! ## C6: sequential chains of `to()` -/

/-- Apply a chain of `to()` calls with the given second-durations and no
position argument. -/
def applyTos (tl : Timeline) (ds : List ℚ) : Timeline :=
  ds.foldl (fun t d => toSchedule t d none) tl

/-- The entry list a sequential chain is expected to produce: millisecond
durations `ms`, each entry starting where the previous one ended, the
first at `base`. -/
def seqEntriesFrom (base : ℚ) : List ℚ → List AnimEntry
  | [] => []
  | m :: ms =>
    ⟨⟨some m, true⟩, some (Sum.inl (jnum base))⟩ :: seqEntriesFrom (base + m) ms

theorem seqEntriesFrom_append (ms : List ℚ) (base m : ℚ) :
    seqEntriesFrom base (ms ++ [m])
      = seqEntriesFrom base ms
        ++ [⟨⟨some m, true⟩, some (Sum.inl (jnum (base + ms.sum)))⟩] := by
  induction ms generalizing base with
  | nil => simp [seqEntriesFrom]
  | cons m' ms ih =>
    simp only [List.cons_append, seqEntriesFrom, List.append_eq]
    rw [ih]
    simp [add_assoc]

theorem fold_durationStep_seq (ms : List ℚ) (base acc : ℚ)
    (hms : ∀ m ∈ ms, 0 ≤ m) (hacc : acc ≤ base) :
    List.foldl durationStep (jnum acc) (seqEntriesFrom base ms)
      = jnum (if ms = [] then acc else base + ms.sum) := by
  induction ms generalizing base acc with
  | nil => simp [seqEntriesFrom]
  | cons m ms ih =>
    have hm : 0 ≤ m := hms m (by simp)
    have hstep : durationStep (jnum acc) ⟨⟨some m, true⟩, some (Sum.inl (jnum base))⟩
        = jnum (base + m) := by
      have : max acc (base + m) = base + m := max_eq_right (by linarith)
      simp [durationStep, jmax, jadd, jnum, this]
    simp only [seqEntriesFrom, List.foldl_cons, hstep]
    rw [ih (base + m) (base + m) (fun x hx => hms x (by simp [hx])) le_rfl]
    by_cases hms0 : ms = []
    · simp [hms0]
    · simp [hms0, List.sum_cons, add_assoc]

theorem applyTos_seq (ds : List ℚ) (tl : Timeline) (ms0 : List ℚ)
    (hds : ∀ d ∈ ds, 0 ≤ d) (hms0 : ∀ m ∈ ms0, 0 ≤ m)
    (ha : tl.animations = seqEntriesFrom 0 ms0)
    (hd : tl.duration = jnum ms0.sum) :
    (applyTos tl ds).animations
        = seqEntriesFrom 0 (ms0 ++ ds.map (fun d => d * 1000)) ∧
    (applyTos tl ds).duration
        = jnum ((ms0 ++ ds.map (fun d => d * 1000)).sum) := by
  induction ds generalizing tl ms0 with
  | nil => simpa [applyTos] using ⟨ha, hd⟩
  | cons d ds ih =>
    have hd0 : 0 ≤ d := hds d (by simp)
    -- the single step: `to(_, _, d)` appends one entry at the running end
    have hresolved : addResolved tl none = some (jnum ms0.sum) := by
      rcases List.eq_nil_or_concat ms0 with h0 | ⟨ms', m', h0⟩
      · subst h0
        simp [addResolved, ha, seqEntriesFrom, jadd, jnum]
      · subst h0
        simp only [List.concat_eq_append] at ha ⊢
        have hlast : (seqEntriesFrom 0 (ms' ++ [m'])).getLast?
            = some ⟨⟨some m', true⟩, some (Sum.inl (jnum (0 + ms'.sum)))⟩ := by
          rw [seqEntriesFrom_append, List.getLast?_concat]
        simp only [addResolved, ha, hlast, prevStartOf, Option.getD_some,
          jadd, jnum]
        simp [List.sum_append, add_assoc]
    have hanims : (toSchedule tl d none).animations
        = seqEntriesFrom 0 (ms0 ++ [d * 1000]) := by
      simp only [toSchedule, addAnim, ha, hresolved, seqEntriesFrom_append]
      simp
    have hdur : (toSchedule tl d none).duration
        = jnum ((ms0 ++ [d * 1000]).sum) := by
      have : (toSchedule tl d none).duration
          = calcDuration ((toSchedule tl d none).animations) := rfl
      rw [this, hanims, calcDuration,
        fold_durationStep_seq (ms0 ++ [d * 1000]) 0 0
          (by
            intro x hx
            rcases List.mem_append.mp hx with hx | hx
            · exact hms0 x hx
            · simp only [List.mem_singleton] at hx
              subst hx
              positivity)
          le_rfl]
      simp
    have := ih (toSchedule tl d none) (ms0 ++ [d * 1000])
      (fun x hx => hds x (by simp [hx]))
      (by
        intro x hx
        rcases List.mem_append.mp hx with hx | hx
        · exact hms0 x hx
        · simp only [List.mem_singleton] at hx
          subst hx
          positivity)
      hanims (by simpa using hdur)
    simpa [applyTos, List.map_cons, add_assoc] using this

/-- C6.  A chain of `to()` calls with no explicit position, applied to a
fresh timeline, produces entries each starting exactly where the previous
one ends (positions are the running sums of the millisecond durations) and
a total `duration` equal to the sum of the entries' durations.  Durations
are assumed non-negative (a well-formed chain). -/
theorem sequential_to_duration (ds : List ℚ) (h : ∀ d ∈ ds, 0 ≤ d) :
    (applyTos timelineEmpty ds).animations
        = seqEntriesFrom 0 (ds.map (fun d => d * 1000)) ∧
    (applyTos timelineEmpty ds).duration
        = jnum ((ds.map (fun d => d * 1000)).sum) := by
  have := applyTos_seq ds timelineEmpty [] h (by simp) rfl rfl
  simpa using this

/-- Witness for C6: the chain `to(_,_,1).to(_,_,2)` yields entries at 0 and
1000 ms and duration 3000 ms. -/
theorem sequential_to_duration_witness :
    ((applyTos timelineEmpty [1, 2]).animations
        = seqEntriesFrom 0 ([1, 2].map (fun d => d * 1000)) ∧
      (applyTos timelineEmpty [1, 2]).duration
        = jnum (([1, 2].map (fun d => (d : ℚ) * 1000)).sum)) ∧
    (applyTos timelineEmpty [1, 2]).duration = jnum 3000 := by
  refine ⟨sequential_to_duration [1, 2] ?_, by with_unfolding_all rfl⟩
  intro d hd
  simp only [List.mem_cons, List.not_mem_nil, or_false] at hd
  rcases hd with hd | hd <;> subst hd <;> norm_num

/-! ## C10: stored positions are never strings -/

/-- An entry whose stored position is not a string (it is a number — NaN
included — or `undefined`). -/
def NoStrPos (a : AnimEntry) : Prop := ∀ s, a.position ≠ some (Sum.inr s)

theorem addAnim_animations (tl : Timeline) (o : AnimOptions) (p : Option PosTok) :
    (addAnim tl o p).animations
      = tl.animations ++ [⟨o, (addResolved tl p).map Sum.inl⟩] := rfl

theorem pauseTL_animations (tl : Timeline) :
    (pauseTL tl).animations = tl.animations := rfl

theorem playTL_animations (tl : Timeline) (now : ℚ) (fid : ℕ)
    (arg : Option PosTok) : (playTL tl now fid arg).animations = tl.animations := by
  simp only [playTL]
  split
  · rfl
  · split
    · split <;> rfl
    · rfl
    · split <;> rfl

theorem reverseTL_animations (tl : Timeline) (now : ℚ) (fid : ℕ) :
    (reverseTL tl now fid).animations = tl.animations := by
  simp only [reverseTL]
  split
  · split <;> rfl
  · rfl

theorem toggleTL_animations (tl : Timeline) (now : ℚ) (fid : ℕ) :
    (toggleTL tl now fid).animations = tl.animations := by
  simp only [toggleTL]
  split
  · exact pauseTL_animations tl
  · split
    · exact playTL_animations tl now fid none
    · exact reverseTL_animations tl now fid

theorem completionTL_animations (tl : Timeline) (time : ℚ) :
    (completionTL tl time).animations = tl.animations := by
  simp only [completionTL, pauseTL]
  split <;> split <;> (try split) <;> rfl

theorem tickTL_animations (tl : Timeline) (time : ℚ) (fid : ℕ) :
    (tickTL tl time fid).animations = tl.animations := by
  simp only [tickTL]
  split <;> split <;> simp [completionTL_animations]

theorem addLabelTL_animations (tl : Timeline) (n : String) (p : Option PosTok) :
    (addLabelTL tl n p).animations = tl.animations := by
  simp only [addLabelTL]
  split <;> rfl

theorem progressRun_animations (tl : Timeline) (v : ℚ) :
    ((progressRun tl v).1).animations = tl.animations := by
  simp only [progressRun]
  split <;> rfl

theorem applyOp_no_str (op : TLOp) (tl : Timeline)
    (h : ∀ a ∈ tl.animations, NoStrPos a) :
    ∀ a ∈ (applyOp tl op).animations, NoStrPos a := by
  cases op with
  | toOp d p =>
    intro a ha
    rw [show applyOp tl (TLOp.toOp d p) = addAnim tl ⟨some (d * 1000), true⟩ p
      from rfl, addAnim_animations] at ha
    rcases List.mem_append.mp ha with ha | ha
    · exact h a ha
    · simp only [List.mem_singleton] at ha
      subst ha
      intro s heq
      simp only at heq
      cases haddr : addResolved tl p <;> rw [haddr] at heq <;> simp at heq
  | addLabelOp n p =>
    intro a ha
    rw [show applyOp tl (TLOp.addLabelOp n p) = addLabelTL tl n p from rfl,
      addLabelTL_animations] at ha
    exact h a ha
  | seekOp t =>
    intro a ha
    exact h a ha
  | playOp now fid arg =>
    intro a ha
    rw [show applyOp tl (TLOp.playOp now fid arg) = playTL tl now fid arg
      from rfl, playTL_animations] at ha
    exact h a ha
  | pauseOp =>
    intro a ha
    exact h a ha
  | progressOp v =>
    intro a ha
    rw [show applyOp tl (TLOp.progressOp v) = (progressRun tl v).1 from rfl,
      progressRun_animations] at ha
    exact h a ha
  | reverseOp now fid =>
    intro a ha
    rw [show applyOp tl (TLOp.reverseOp now fid) = reverseTL tl now fid
      from rfl, reverseTL_animations] at ha
    exact h a ha
  | toggleOp now fid =>
    intro a ha
    rw [show applyOp tl (TLOp.toggleOp now fid) = toggleTL tl now fid
      from rfl, toggleTL_animations] at ha
    exact h a ha
  | yoyoOp b =>
    intro a ha
    exact h a ha
  | tickOp t fid =>
    intro a ha
    rw [show applyOp tl (TLOp.tickOp t fid) = tickTL tl t fid from rfl,
      tickTL_animations] at ha
    exact h a ha

theorem applyOps_no_str (ops : List TLOp) :
    ∀ tl : Timeline, (∀ a ∈ tl.animations, NoStrPos a) →
      ∀ a ∈ (applyOps tl ops).animations, NoStrPos a := by
  induction ops with
  | nil => intro tl h; exact h
  | cons op ops ih =>
    intro tl h
    exact ih (applyOp tl op) (applyOp_no_str op tl h)

theorem seekStart_label_free (a : AnimEntry) (h : NoStrPos a)
    (L1 L2 : List (String × JSNum)) : seekStart L1 a = seekStart L2 a := by
  unfold seekStart
  cases hp : a.position with
  | none => rfl
  | some v =>
    cases v with
    | inl jn => rfl
    | inr s => exact absurd hp (h s)

/-- C10.  In every state reachable from a fresh timeline through the public
API, every stored entry position is a number or `undefined`, never a
string: `add` resolves label references once, at insertion time.
Consequently the start time `seek` computes for an entry does not depend
on the label table at all — adding or redefining a label after an entry
was inserted can never move that entry. -/
theorem stored_positions_never_strings (ops : List TLOp) (a : AnimEntry)
    (ha : a ∈ (applyOps timelineEmpty ops).animations) :
    (∀ s, a.position ≠ some (Sum.inr s)) ∧
    (∀ L1 L2, seekStart L1 a = seekStart L2 a) := by
  have hno : NoStrPos a := by
    refine applyOps_no_str ops timelineEmpty ?_ a ha
    intro x hx
    simp [timelineEmpty, mkTimeline] at hx
  exact ⟨hno, fun L1 L2 => seekStart_label_free a hno L1 L2⟩

/-- The entry produced by a single sequential `to()` on a fresh timeline. -/
def entryW : AnimEntry := ⟨⟨some 1000, true⟩, some (Sum.inl (jnum 0))⟩

/-- Witness for C10: the single entry of `to(_, _, 1)` has a numeric
position (not the string `"lbl"`), and `seek` resolves its start the same
under two different label tables. -/
theorem stored_positions_never_strings_witness :
    entryW.position ≠ some (Sum.inr "lbl") ∧
    seekStart [("a", jnum 5)] entryW = seekStart [] entryW := by
  have hm : entryW ∈ (applyOps timelineEmpty [TLOp.toOp 1 none]).animations := by
    have he : (applyOps timelineEmpty [TLOp.toOp 1 none]).animations = [entryW] := by
      with_unfolding_all rfl
    rw [he]
    exact List.mem_singleton.mpr rfl
  exact ⟨(stored_positions_never_strings [TLOp.toOp 1 none] entryW hm).1 "lbl",
    (stored_positions_never_strings [TLOp.toOp 1 none] entryW hm).2 _ _⟩
